import Mathlib

/-!
Verification development for the DogPark-KGHub knowledge-graph ETL pipeline.

The Python sources are shallowly embedded as executable Lean definitions:

* `hub/dataload/data_parsers.py` — streaming file merger (`read_jsonl`,
  `load_nodes`, `load_edges`, `load_merged_edges`);
* `hub/dataload/utils/postprocessing.py` — biolink prefix stripping and the
  memoized ancestor resolver;
* `hub/databuild/node_edge_builder.py` — the batch partitioning of
  `merge_source`, the worker-call arity, the merge struct and the worker's
  exception handler;
* `hub/dataindex/indexer.py` — the `do_index` dispatch loop as a state
  machine driven by an explicit completion-event oracle, and the
  `RTXKG2IndexingTask` construction.

Python `dict` objects are modelled as insertion-ordered key/value sequences
(`Fields`): assignment replaces an existing key in place or appends at the
end, exactly like CPython dicts.  Generators are modelled as the full list
they yield; a run that raises is modelled with `Except`.
-/

namespace DogPark

/-! ### JSON-like documents (Python dicts parsed from JSONL lines) -/

mutual
/-- A JSON value: a scalar (all scalars abstracted as strings) or a nested
object. -/
inductive Val where
  | prim : String → Val
  | obj : Fields → Val
  deriving DecidableEq
/-- An insertion-ordered Python dict: a sequence of key/value fields. -/
inductive Fields where
  | nil : Fields
  | cons : String → Val → Fields → Fields
  deriving DecidableEq
end

/-- A parsed JSONL record (a Python dict). -/
abbrev Doc := Fields

/-- Build a `Doc` from a list literal (convenience for concrete inputs). -/
def fieldsOf : List (String × Val) → Doc
  | [] => .nil
  | (k, v) :: rest => .cons k v (fieldsOf rest)

/-- Python `d[k]` read: `some` value at the first matching key, else `none`
(`none` models a raised `KeyError`/a failed `"k" in d` test). -/
def dGet (d : Doc) (k : String) : Option Val :=
  match d with
  | .nil => none
  | .cons k2 v rest => if k2 = k then some v else dGet rest k

/-- Python `d[k] = v` assignment: replace the value at an existing key in
place, otherwise append the new field at the end (CPython dict order). -/
def dSet (d : Doc) (k : String) (v : Val) : Doc :=
  match d with
  | .nil => .cons k v .nil
  | .cons k2 v2 rest => if k2 = k then .cons k v rest else .cons k2 v2 (dSet rest k v)

/-! ### Python exceptions relevant to the embedded code -/

/-- The Python exception kinds the embedded code can raise. -/
inductive PyExc where
  | keyError
  | typeError
  | nameError
  deriving DecidableEq

/-! ### `hub/dataload/data_parsers.py` — Streaming File Merger -/

/-- `NODE_BUFFER_SIZE = 4096` (data_parsers.py line 9). -/
def NODE_BUFFER_SIZE : Nat := 4096

/-- `EDGE_BUFFER_SIZE = 2048` (data_parsers.py line 10). -/
def EDGE_BUFFER_SIZE : Nat := 2048

/-- `doc["_id"] = doc["id"] if "id" in doc else str(index)`
(data_parsers.py line 39): only the `_id` field is populated, the `id`
field is never written. -/
def withPositionalId (index : Nat) (doc : Doc) : Doc :=
  dSet doc "_id" (match dGet doc "id" with
    | some v => v
    | none => .prim (toString index))

/-- The per-record processing of `read_jsonl` applied to every record in
file order, with its running zero-based `index`. -/
def assignIds : Nat → List Doc → List Doc
  | _, [] => []
  | index, doc :: rest => withPositionalId index doc :: assignIds (index + 1) rest

/-- The buffered loop of `read_jsonl` (data_parsers.py lines 33-48): append
each processed record to `buffer`; once `buffer` reaches `bufSize`, yield it
and reset; at the end yield any leftover buffer. -/
def readLoop (bufSize : Nat) : List Doc → Nat → List Doc → List Doc
  | buffer, _, [] => buffer
  | buffer, index, doc :: rest =>
    let doc2 := withPositionalId index doc
    let buffer2 := buffer ++ [doc2]
    if buffer2.length = bufSize then buffer2 ++ readLoop bufSize [] (index + 1) rest
    else readLoop bufSize buffer2 (index + 1) rest

/-- `read_jsonl` (data_parsers.py lines 22-48) on the already-parsed list of
records of one file. -/
def read_jsonl (docs : List Doc) : List Doc :=
  readLoop NODE_BUFFER_SIZE [] 0 docs

/-- A data directory: the parsed records of `nodes.jsonl` and `edges.jsonl`. -/
structure DataFolder where
  nodes : List Doc
  edges : List Doc

/-- `load_nodes` (data_parsers.py lines 63-65). -/
def load_nodes (folder : DataFolder) : List Doc :=
  read_jsonl folder.nodes

/-- `load_edges` (data_parsers.py lines 58-60). -/
def load_edges (folder : DataFolder) : List Doc :=
  read_jsonl folder.edges

/-- The node reference dict keyed by the `id` field value. -/
abbrev NodeMap := List (Val × Doc)

/-- Lookup in the node dict (`nodes[subject_id]`): first matching key. -/
def mapLookup (m : NodeMap) (k : Val) : Option Doc :=
  match m with
  | [] => none
  | (k2, v) :: rest => if k2 = k then some v else mapLookup rest k

/-- Python dict insertion for the node map: overwrite an existing key in
place, else append (so a later node with a duplicate `id` wins). -/
def mapInsert (m : NodeMap) (k : Val) (v : Doc) : NodeMap :=
  match m with
  | [] => [(k, v)]
  | (k2, v2) :: rest => if k2 = k then (k, v) :: rest else (k2, v2) :: mapInsert rest k v

/-- `nodes = {node['id']: node for node in load_nodes(data_folder)}`
(data_parsers.py line 72): `node['id']` raises `KeyError` when a node
record has no `id` field. -/
def buildNodeMap : NodeMap → List Doc → Except PyExc NodeMap
  | m, [] => .ok m
  | m, node :: rest =>
    match dGet node "id" with
    | none => .error .keyError
    | some idv => buildNodeMap (mapInsert m idv node) rest

/-- The body of the edge loop of `load_merged_edges` (data_parsers.py lines
76-80): read `edge["subject"]` and `edge["object"]`, look both up in the
node dict, then assign the node records over the two fields. -/
def mergeEdge (nodes : NodeMap) (edge : Doc) : Except PyExc Doc :=
  match dGet edge "subject" with
  | none => .error .keyError
  | some subject_id =>
    match dGet edge "object" with
    | none => .error .keyError
    | some object_id =>
      match mapLookup nodes subject_id with
      | none => .error .keyError
      | some subject_node =>
        match mapLookup nodes object_id with
        | none => .error .keyError
        | some object_node =>
          .ok (dSet (dSet edge "subject" (.obj subject_node)) "object" (.obj object_node))

/-- An edge record whose `subject` and `object` fields are present and both
resolve in the node dict (the well-referenced precondition). -/
def edgeResolvable (nodes : NodeMap) (edge : Doc) : Bool :=
  match dGet edge "subject", dGet edge "object" with
  | some subject_id, some object_id =>
    (mapLookup nodes subject_id).isSome && (mapLookup nodes object_id).isSome
  | _, _ => false

/-- The buffered edge loop of `load_merged_edges` (data_parsers.py lines
74-90): merge each edge, buffer it, flush the buffer at `EDGE_BUFFER_SIZE`,
and flush the leftover at the end. -/
def mergeLoop (bufSize : Nat) (nodes : NodeMap) : List Doc → List Doc → Except PyExc (List Doc)
  | buffer, [] => .ok buffer
  | buffer, edge :: rest =>
    match mergeEdge nodes edge with
    | .error e => .error e
    | .ok merged =>
      let buffer2 := buffer ++ [merged]
      if buffer2.length = bufSize then
        match mergeLoop bufSize nodes [] rest with
        | .error e => .error e
        | .ok out => .ok (buffer2 ++ out)
      else mergeLoop bufSize nodes buffer2 rest

/-- Unbuffered merging of every edge in order (reference function used to
show the buffering is unobservable). -/
def mergeAll (nodes : NodeMap) : List Doc → Except PyExc (List Doc)
  | [] => .ok []
  | edge :: rest =>
    match mergeEdge nodes edge with
    | .error e => .error e
    | .ok merged =>
      match mergeAll nodes rest with
      | .error e => .error e
      | .ok out => .ok (merged :: out)

/-- `load_merged_edges` (data_parsers.py lines 68-90), run to completion:
build the node reference dict from `load_nodes`, then stream `load_edges`
through the buffered merge loop. -/
def load_merged_edges (folder : DataFolder) : Except PyExc (List Doc) :=
  match buildNodeMap [] (load_nodes folder) with
  | .error e => .error e
  | .ok nodes => mergeLoop EDGE_BUFFER_SIZE nodes [] (load_edges folder)

/-! ### `hub/dataload/utils/postprocessing.py` — prefix stripping and the
memoized ancestor resolver.  Python strings are modelled as `List Char`. -/

/-- The literal `"biolink:"` (8 characters). -/
def biolink_pfx : List Char := "biolink:".toList

/-- `remove_single_biolink_prefix` (postprocessing.py lines 5-8):
`if text.startswith("biolink:"): return text[8:]` else return `text`
unchanged (case-sensitive, prefix-exact). -/
def remove_single_biolink_prefix (text : List Char) : List Char :=
  if biolink_pfx.isPrefixOf text then text.drop 8 else text

/-- A Python value that is either a `str` or a `list` of `str`, the two
argument shapes `remove_biolink_prefix` dispatches on. -/
inductive StrOrList where
  | s : List Char → StrOrList
  | l : List (List Char) → StrOrList
  deriving DecidableEq

/-- `remove_biolink_prefix` (postprocessing.py lines 10-14): a string is
stripped directly, a list is stripped element-wise. -/
def remove_biolink_prefix : StrOrList → StrOrList
  | .s t => .s ( remove_single_biolink_prefix t)
  | .l ts => .l (ts.map fun t => remove_single_biolink_prefix t)

/-- The ancestor cache: a Python dict from phrase to resolved ancestor
list (an empty first result is cached like any other). -/
abbrev AncCache := List (List Char × List (List Char))

/-- `phrase in cache` / `cache[phrase]` read. -/
def cacheGet (cache : AncCache) (phrase : List Char) : Option (List (List Char)) :=
  match cache with
  | [] => none
  | (k, v) :: rest => if k = phrase then some v else cacheGet rest phrase

/-- `cache[phrase] = ancestors` (overwrite in place or append). -/
def cacheSet (cache : AncCache) (phrase : List Char) (v : List (List Char)) : AncCache :=
  match cache with
  | [] => [(phrase, v)]
  | (k, v2) :: rest =>
    if k = phrase then (phrase, v) :: rest else (k, v2) :: cacheSet rest phrase v

/-- `get_ancestors` (postprocessing.py lines 16-28).  The external
`biolink.get_ancestors` toolkit call is abstracted as `lookup`; the third
component of the result counts how many times `lookup` was invoked by this
call.  On a cache hit the cached value is returned with no lookup; on a
miss the lookup result (prefix-stripped item-wise when non-empty, exactly
the `str` branch of `remove_biolink_prefix`) is cached — also when empty —
and returned. -/
def get_ancestors (lookup : List Char → List (List Char)) (phrase : List Char)
    (cache : AncCache) : List (List Char) × AncCache × Nat :=
  match cacheGet cache phrase with
  | some v => (v, cache, 0)
  | none =>
    let ancestors := lookup phrase
    let ancestors :=
      if ancestors.isEmpty then ancestors
      else ancestors.map fun item => remove_single_biolink_prefix item
    (ancestors, cacheSet cache phrase ancestors, 1)

/-! ### `hub/databuild/node_edge_builder.py` — Parallel Build Orchestrator
and Batch Merge Worker -/

/-- Fuel-driven body of `iter_n`: each step removes at least one element
from a non-empty list, so `xs.length` is enough fuel. -/
def iter_nF : Nat → List α → Nat → List (List α)
  | 0, _, _ => []
  | _ + 1, _, 0 => []
  | _ + 1, [], _ + 1 => []
  | fuel + 1, x :: xs, n + 1 =>
    (x :: xs).take (n + 1) :: iter_nF fuel ((x :: xs).drop (n + 1)) (n + 1)

/-- `biothings.utils.common.iter_n` on a materialized list: split into
consecutive chunks of `n`; with `n = 0` the underlying `islice(it, 0)` is
immediately empty, so no chunk at all is produced. -/
def iter_n (xs : List α) (n : Nat) : List (List α) :=
  iter_nF xs.length xs n

/-- The id batches `merge_source` dispatches for a truthy (non-empty)
explicit `ids` list (node_edge_builder.py lines 92-98 and 113-114): the
overwritten `id_provider` is then `iter_n(ids, int(batch_size / 100))` —
the comment there says the batch size must be reduced because the ids are
sent inside the query — and the dispatch loop re-chunks each super-batch
with `iter_n(big_doc_ids, batch_size)`.  This is only the truthy arm of
the `ids and ... or id_feeder(...)` expression: the full provider,
including the falsy-empty-list fallback to `id_feeder`, is
`merge_source_dispatch_batches` below. -/
def mergeSourceBatches (ids : List α) (batch_size : Nat) : List (List α) :=
  (iter_n ids (batch_size / 100)).flatMap fun big_doc_ids => iter_n big_doc_ids batch_size

/-- The id batches the dispatch loop actually consumes, with the
truthiness of `id_provider = ids and iter_n(ids, int(batch_size / 100))
or id_feeder(self.source_backend[src_name], batch_size=id_batch_size,...)`
(node_edge_builder.py lines 94-98, with `id_batch_size = batch_size * 10`
from line 58): a non-empty explicit `ids` list is truthy and is chunked
by `int(batch_size / 100)`; an empty list is falsy, so the code falls
back to enumerating the whole source collection's ids (`source_ids`) in
super-batches of `10 * batch_size`.  Either way the dispatch loop
(lines 113-114) re-chunks each super-batch with
`iter_n(big_doc_ids, batch_size)`. -/
def merge_source_dispatch_batches (ids source_ids : List α) (batch_size : Nat) :
    List (List α) :=
  (if ids.isEmpty then iter_n source_ids (batch_size * 10)
   else iter_n ids (batch_size / 100)).flatMap
    fun big_doc_ids => iter_n big_doc_ids batch_size

/-- The running `cnt` (`cnt += len(doc_ids)`, node_edge_builder.py line
118) accumulated over the actually dispatched batches; the success path
returns `{src_name: cnt}` (line 176). -/
def merge_source_dispatch_cnt (ids source_ids : List α) (batch_size : Nat) : Nat :=
  (merge_source_dispatch_batches ids source_ids batch_size).foldl
    (fun acc doc_ids => acc + doc_ids.length) 0

/-- The running `cnt` accumulated by the dispatch loop
(`cnt += len(doc_ids)`, node_edge_builder.py line 118); the success path
returns `{src_name: cnt}` (line 176). -/
def merge_source_cnt (ids : List α) (batch_size : Nat) : Nat :=
  (mergeSourceBatches ids batch_size).foldl (fun acc doc_ids => acc + doc_ids.length) 0

/-- The value `merge_source` returns on its success path
(node_edge_builder.py line 176): the source name keyed to `cnt`. -/
def merge_source_success_value (src_name : String) (ids : List α) (batch_size : Nat) :
    String × Nat :=
  (src_name, merge_source_cnt ids batch_size)

/-- One positional argument bound by `merge_source`'s `partial(...)` for the
worker (node_edge_builder.py lines 133-144). -/
inductive PyArg where
  | str : String → PyArg
  | strList : List String → PyArg
  | mapperArg : PyArg
  | cleanerArg : PyArg
  | boolArg : Bool → PyArg
  | natArg : Nat → PyArg
  | noneArg : PyArg
  deriving DecidableEq

/-- The parameter list of `def node_edge_merger_worker(col_name, dest_name,
ids, mapper, cleaner, upsert)` (node_edge_builder.py line 179): six
positional parameters, no defaults, no varargs. -/
def node_edge_merger_worker_params : List String :=
  ["col_name", "dest_name", "ids", "mapper", "cleaner", "upsert"]

/-- The nine positional arguments `merge_source` binds with `partial` when
it defers a merger job (node_edge_builder.py lines 134-143), in order. -/
def merge_source_bound_args (col_name target_name : String) (doc_ids : List String)
    (upsert : Bool) (merger : String) (bnum : Nat) : List PyArg :=
  [ .str col_name,        -- self.source_backend[src_name].name
    .str target_name,     -- self.target_backend.target_name
    .strList doc_ids,     -- doc_ids
    .mapperArg,           -- self.get_mapper_for_source(src_name, init=False)
    .cleanerArg,          -- doc_cleaner
    .boolArg upsert,      -- upsert
    .str merger,          -- merger
    .natArg bnum,         -- bnum
    .noneArg ]            -- merger_kwargs

/-- Outcome of invoking the worker callable in the pool: the returned
value, plus the trace of database reads/writes the body performed. -/
structure WorkerInvocation where
  result : Except PyExc Nat
  dbEffects : List String

/-- Python positional-call semantics for `node_edge_merger_worker`: CPython
checks the argument count against the six declared parameters before the
body runs; a mismatch raises `TypeError` with no effect.  A matching call
runs the abstract `body`. -/
def invoke_node_edge_merger_worker (args : List PyArg)
    (body : Unit → Except PyExc Nat × List String) : WorkerInvocation :=
  if args.length = node_edge_merger_worker_params.length then
    let r := body ()
    ⟨r.1, r.2⟩
  else ⟨.error .typeError, []⟩

/-- The worker jobs `merge_source`'s dispatch loop defers, one per batch,
with `bnum` counting up from 1 (node_edge_builder.py lines 113-156): each
job is an invocation of the worker over the nine bound arguments. -/
def merge_source_jobs (col_name target_name : String) (upsert : Bool) (merger : String)
    (body : List String → Unit → Except PyExc Nat × List String) :
    Nat → List (List String) → List WorkerInvocation
  | _, [] => []
  | bnum, doc_ids :: rest =>
    invoke_node_edge_merger_worker
        (merge_source_bound_args col_name target_name doc_ids upsert merger bnum)
        (body doc_ids)
      :: merge_source_jobs col_name target_name upsert merger body (bnum + 1) rest

/-- `merge_source` over an explicit id list, run to its outcome: every
batch is deferred as a worker call over the nine bound arguments; the
completion callbacks flag `got_error` whenever a job result is not an
`int` (node_edge_builder.py lines 147-174), in which case `merge_source`
raises (modelled `none`) instead of returning the success mapping. -/
def merge_source_run (src_name col_name target_name : String) (ids : List String)
    (batch_size : Nat) (upsert : Bool) (merger : String)
    (body : List String → Unit → Except PyExc Nat × List String) :
    Option (String × Nat) :=
  let results :=
    merge_source_jobs col_name target_name upsert merger body 1 (mergeSourceBatches ids batch_size)
  if results.all fun r => match r.result with | .ok _ => true | .error _ => false then
    some (merge_source_success_value src_name ids batch_size)
  else none

/-- `node_edge_merge_struct` (node_edge_builder.py lines 228-230): assign
the whole second document over the first document's `subject` field. -/
def node_edge_merge_struct (edge_document : Doc) (node_document : Doc) : Doc :=
  dSet edge_document "subject" (.obj node_document)

/-! #### The worker's `except` block (node_edge_builder.py lines 207-225)

Each statement of the handler is modelled by the Python names it reads,
the names it binds on success, and the diagnostic file it writes.
Evaluating a name that is not bound in the function's scope raises
`NameError` and aborts the handler at that statement. -/

/-- One statement of the `except` block: names read, names bound, file
written. -/
structure PyStmt where
  uses : List String
  binds : List String
  writes : Option String
  deriving DecidableEq

/-- The statements of the worker's `except Exception as e:` block, in
source order (node_edge_builder.py lines 208-224).  Note lines 208 and
211-215 read `batch_num` and `merger`, which are not among the worker's
six parameters and are never assigned in its body. -/
def worker_except_stmts : List PyStmt :=
  [ ⟨["dest_name", "col_name", "batch_num"], ["logger_name"], none⟩,  -- line 208
    ⟨["logger_name"], ["logger"], none⟩,                              -- line 209
    ⟨["logger", "e"], [], none⟩,                                      -- line 210
    ⟨["logger", "col_name", "dest_name", "mapper", "cleaner", "upsert",
      "merger", "batch_num"], [], none⟩,                              -- lines 211-215
    ⟨["logger_name"], ["exc_fn"], none⟩,                              -- line 216
    ⟨["e", "exc_fn"], [], some "exc"⟩,                                -- line 217
    ⟨["logger", "exc_fn"], [], none⟩,                                 -- line 218
    ⟨["logger_name"], ["ids_fn"], none⟩,                              -- line 219
    ⟨["ids", "ids_fn"], [], some "ids"⟩,                              -- line 220
    ⟨["logger", "ids_fn"], [], none⟩,                                 -- line 221
    ⟨["logger_name"], ["dat_fn"], none⟩,                              -- line 222
    ⟨["docs", "dat_fn"], [], some "docs"⟩,                            -- line 223
    ⟨["logger", "dat_fn"], [], none⟩ ]                                -- line 224

/-- Run a statement sequence in a scope of bound names: a statement whose
read names are all bound performs its write and binds its names; reading
an unbound name raises `NameError` there (`some PyExc.nameError`), leaving
the remaining statements unexecuted.  Result: the diagnostic files written
and the exception the handler itself raised (`none` means the handler ran
to its end and the original exception is re-raised by the bare `raise`). -/
def runStmts (scope : List String) : List PyStmt → List String × Option PyExc
  | [] => ([], none)
  | st :: rest =>
    if st.uses.all fun n => scope.contains n then
      let r := runStmts (scope ++ st.binds) rest
      (st.writes.toList ++ r.1, r.2)
    else ([], some .nameError)

/-- Every name `node_edge_merger_worker` can possibly have bound when an
exception reaches the handler: its six parameters plus the locals its
`try` block assigns (node_edge_builder.py lines 185-205).  `batch_num`,
`merger` and `merger_kwargs` are not among them. -/
def worker_scope_names : List String :=
  node_edge_merger_worker_params ++
    ["e", "source_database", "target_database", "source_column_name",
     "target_column_name", "destination_backend", "cur", "docs",
     "stored_docs", "ddocs", "cnt"]

/-! ### `hub/dataindex/indexer.py` — Parallel Index Orchestrator

`do_index` (lines 103-183) is a single-threaded cooperative loop: it
dispatches one job per id batch; each job's `batch_finished` completion
callback either adds the job's count to `schedule.finished` or records the
exception in the `error` sentinel.  Callbacks can only run at the loop's
suspension points, so the execution is determined by an oracle listing
which completion events fire before each iteration and which fire during
the final `asyncio.gather`. -/

/-- The lifecycle of one dispatched indexing job. -/
inductive JobStatus where
  | running
  | succeeded : Nat → JobStatus
  | failed
  | cancelled
  deriving DecidableEq

/-- The orchestrator-visible state: dispatched job statuses, the `error`
sentinel (line 126), and `schedule.finished` (line 134). -/
structure IdxState where
  jobs : List JobStatus
  error : Bool
  finished : Nat
  deriving DecidableEq

/-- A completion event delivered to `batch_finished` (lines 131-137): the
index of the job that settled and `some count` on success or `none` when
`future.result()` re-raises the job's exception. -/
abbrev Comp := Nat × Option Nat

/-- `batch_finished` (lines 131-137): on success add the count to
`schedule.finished`; on exception record the `error` sentinel.  Events for
unknown or already-settled jobs change nothing. -/
def applyComp (s : IdxState) (c : Comp) : IdxState :=
  match s.jobs[c.1]? with
  | some .running =>
    match c.2 with
    | some n => { s with jobs := s.jobs.set c.1 (.succeeded n), finished := s.finished + n }
    | none => { s with jobs := s.jobs.set c.1 .failed, error := true }
  | _ => s

/-- Deliver a list of completion events in order. -/
def applyComps (s : IdxState) (cs : List Comp) : IdxState :=
  cs.foldl applyComp s

/-- `for job in jobs: if not job.done(): job.cancel()` (lines 146-148):
every still-running job becomes cancelled; settled jobs are untouched. -/
def cancelPending (jobs : List JobStatus) : List JobStatus :=
  jobs.map fun j => if j = .running then .cancelled else j

/-- How the dispatch loop (lines 139-166) ended: raised at the top of an
iteration after cancelling, or ran out of batches. -/
inductive LoopOut where
  | raisedEarly : List JobStatus → LoopOut
  | finishedLoop : IdxState → LoopOut
  deriving DecidableEq

/-- The dispatch loop of `do_index` (lines 139-166): at the top of every
iteration (the `await asyncio.sleep(0.0)` suspension point) the oracle's
events for that iteration fire; then, if the `error` sentinel is set,
every not-yet-done job is cancelled and the error is raised before the
next batch is scheduled; otherwise the batch is dispatched as a new
running job. -/
def dispatchLoop : List (List String) → List (List Comp) → IdxState → LoopOut
  | [], _, s => .finishedLoop s
  | _ :: batches, events, s =>
    let s1 := applyComps s (events.headD [])
    if s1.error then .raisedEarly (cancelPending s1.jobs)
    else dispatchLoop batches events.tail { s1 with jobs := s1.jobs ++ [.running] }

/-- The outcome of `do_index` (lines 103-183). -/
inductive IdxResult where
  | raised : List JobStatus → IdxResult  -- raised in the loop, after cancelling
  | raisedGather : IdxResult             -- `asyncio.gather` re-raised a job exception
  | mismatch : Nat → Nat → IdxResult     -- `schedule.completed()` total/finished mismatch
  | success : Nat → IdxResult            -- returned `{"count": total, ...}`
  deriving DecidableEq

/-- `do_index` continued from an intermediate loop state: run the dispatch
loop; if it survives, the remaining completion events fire during
`await asyncio.gather(*jobs)` (line 169), which re-raises if any job
failed; then `schedule.completed()` (line 172) raises on a
finished/total mismatch, else the count mapping is returned (line 183). -/
def do_index_from (total : Nat) (batches : List (List String))
    (events : List (List Comp)) (gatherEvents : List Comp) (s : IdxState) : IdxResult :=
  match dispatchLoop batches events s with
  | .raisedEarly jobs => .raised jobs
  | .finishedLoop s1 =>
    let s2 := applyComps s1 gatherEvents
    if s2.error then .raisedGather
    else if s2.finished = total then .success total
    else .mismatch total s2.finished

/-- `do_index` from the initial state (no jobs, no error, finished = 0). -/
def do_index (total : Nat) (batches : List (List String))
    (events : List (List Comp)) (gatherEvents : List Comp) : IdxResult :=
  do_index_from total batches events gatherEvents ⟨[], false, 0⟩

/-! ### `hub/dataindex/indexer.py` — `RTXKG2IndexingTask` (lines 206-253) -/

/-- Modelled from the spec: the external biothings `_validate_ids` helper
"validates the id list (partitioning into valid vs invalid — invalid ids
are not queried but are still counted in the final tally)".  The split is
made by a fixed validity predicate on each id. -/
def validate_ids (pred : String → Bool) (ids : List String) : List String × List String :=
  (ids.filter pred, ids.filter fun i => ! pred i)

/-- The state `RTXKG2IndexingTask.__init__` (lines 214-236) constructs.
`κ` is the type of the client factory callables. -/
structure RTXKG2TaskState (κ : Type) where
  es : κ
  edge_mongo : κ
  node_mongo : κ
  ids : List String
  invalid_ids : List String
  mode : String
  name : String
  deriving DecidableEq

/-- `RTXKG2IndexingTask.__init__` (lines 214-236): validate the ids, take
`Mode(mode or "index")`, and populate the backend namespace.  Line 236
assigns `self.backend.node_mongo = edge_mongo`, so the `node_mongo`
argument is never stored. -/
def rtxkg2_task_init {κ : Type} (es edge_mongo node_mongo : κ) (pred : String → Bool)
    (ids : List String) (mode : Option String) (name : String) : RTXKG2TaskState κ :=
  { es := es
    edge_mongo := edge_mongo
    node_mongo := edge_mongo  -- indexer.py line 236 (not the `node_mongo` argument)
    ids := (validate_ids pred ids).1
    invalid_ids := (validate_ids pred ids).2
    mode := mode.getD "index"
    name := name }

/-- `RTXKG2IndexingTask.index` (lines 238-253): feed the documents matching
`self.ids` from `self.backend.edge_mongo`, bulk-index them through
`self.backend.es`, and add the invalid-id count.  `edge_doc_feeder` and
`es_mindex` abstract the external `doc_feeder` and `es.mindex`. -/
def rtxkg2_task_index {κ : Type} (edge_doc_feeder : κ → List String → List Doc)
    (es_mindex : κ → List Doc → Nat) (t : RTXKG2TaskState κ) : Nat :=
  es_mindex t.es (edge_doc_feeder t.edge_mongo t.ids) + t.invalid_ids.length

/-! ## Concrete inputs used as counterexamples and witnesses -/

/-- A directory whose single edge references the node `"a"` (which exists),
while a second node record has no `id` field at all. -/
def c1CexFolder : DataFolder :=
  ⟨[fieldsOf [("id", .prim "a")], fieldsOf []],
   [fieldsOf [("subject", .prim "a"), ("object", .prim "a"), ("predicate", .prim "p")]]⟩

/-- A well-formed one-node, one-edge directory. -/
def c1WFolder : DataFolder :=
  ⟨[fieldsOf [("id", .prim "a"), ("name", .prim "Node A")]],
   [fieldsOf [("subject", .prim "a"), ("object", .prim "a"), ("predicate", .prim "p")]]⟩

/-- The node reference dict `load_merged_edges` builds for `c1WFolder`
(the read stage has populated `_id` on the node record). -/
def c1WMap : NodeMap :=
  [(.prim "a", fieldsOf [("id", .prim "a"), ("name", .prim "Node A"), ("_id", .prim "a")])]

/-- Five explicit ids for the `merge_source` batching counterexample. -/
def c2Ids : List String := ["a", "b", "c", "d", "e"]

/-- A freshly transformed edge document. -/
def c5D : Doc :=
  fieldsOf [("_id", .prim "e1"), ("subject", .prim "n1"), ("predicate", .prim "affects")]

/-- A previously stored destination document with a pre-resolved `subject`
node payload. -/
def c5S : Doc :=
  fieldsOf [("_id", .prim "e1"), ("subject", .obj (fieldsOf [("id", .prim "n1")]))]

/-! ## Helper lemmas about the document model -/

theorem dGet_dSet_self : ∀ (d : Doc) (k : String) (v : Val), dGet (dSet d k v) k = some v
  | .nil, k, v => by simp [dGet, dSet]
  | .cons k2 v2 rest, k, v => by
    by_cases h : k2 = k <;> simp [dGet, dSet, h, dGet_dSet_self rest k v]

theorem dGet_dSet_ne : ∀ (d : Doc) (k k2 : String) (v : Val), k ≠ k2 →
    dGet (dSet d k v) k2 = dGet d k2
  | .nil, k, k2, v, h => by simp [dGet, dSet, h]
  | .cons k3 v3 rest, k, k2, v, h => by
    by_cases h3 : k3 = k
    · subst h3
      simp [dGet, dSet, h]
    · simp only [dSet, if_neg h3]
      by_cases h32 : k3 = k2 <;> simp [dGet, h32, dGet_dSet_ne rest k k2 v h]

theorem mapLookup_mapInsert : ∀ (m : NodeMap) (k k2 : Val) (v : Doc),
    mapLookup (mapInsert m k v) k2 = if k = k2 then some v else mapLookup m k2
  | [], k, k2, v => by simp [mapLookup, mapInsert]
  | (k3, v3) :: rest, k, k2, v => by
    by_cases h3 : k3 = k
    · subst h3
      by_cases h32 : k3 = k2 <;> simp [mapLookup, mapInsert, h32]
    · simp only [mapInsert, if_neg h3]
      by_cases h32 : k3 = k2
      · subst h32
        have hk : ¬ k = k3 := fun he => h3 he.symm
        simp [mapLookup, hk]
      · simp [mapLookup, h32, mapLookup_mapInsert rest k k2 v]

theorem cacheGet_cacheSet_self : ∀ (c : AncCache) (k : List Char) (v : List (List Char)),
    cacheGet (cacheSet c k v) k = some v
  | [], k, v => by simp [cacheGet, cacheSet]
  | (k2, v2) :: rest, k, v => by
    by_cases h : k2 = k <;> simp [cacheGet, cacheSet, h, cacheGet_cacheSet_self rest k v]

/-! ## Helper lemmas about `read_jsonl` -/

theorem readLoop_eq (bufSize : Nat) :
    ∀ (docs : List Doc) (buffer : List Doc) (index : Nat),
      readLoop bufSize buffer index docs = buffer ++ assignIds index docs
  | [], buffer, index => by simp [readLoop, assignIds]
  | doc :: rest, buffer, index => by
    simp only [readLoop, assignIds]
    by_cases h : (buffer ++ [withPositionalId index doc]).length = bufSize <;>
      simp [h, readLoop_eq bufSize rest [] (index + 1),
        readLoop_eq bufSize rest (buffer ++ [withPositionalId index doc]) (index + 1)]

theorem read_jsonl_eq (docs : List Doc) : read_jsonl docs = assignIds 0 docs := by
  simpa using readLoop_eq NODE_BUFFER_SIZE docs [] 0

theorem assignIds_length : ∀ (index : Nat) (docs : List Doc),
    (assignIds index docs).length = docs.length
  | _, [] => rfl
  | index, _ :: rest => by simp [assignIds, assignIds_length (index + 1) rest]

theorem read_jsonl_length (docs : List Doc) : (read_jsonl docs).length = docs.length := by
  rw [read_jsonl_eq]
  exact assignIds_length 0 docs

theorem dGet_withPositionalId_id (index : Nat) (doc : Doc) :
    dGet (withPositionalId index doc) "id" = dGet doc "id" := by
  have : "_id" ≠ "id" := by decide
  exact dGet_dSet_ne doc "_id" "id" _ this

theorem assignIds_mem_of_mem : ∀ (docs : List Doc) (index : Nat) (n : Doc), n ∈ docs →
    ∃ j, withPositionalId j n ∈ assignIds index docs
  | [], _, _, h => absurd h (List.not_mem_nil _)
  | d :: rest, index, n, h => by
    rcases List.mem_cons.mp h with h1 | h2
    · subst h1
      exact ⟨index, List.mem_cons_self _ _⟩
    · rcases assignIds_mem_of_mem rest (index + 1) n h2 with ⟨j, hj⟩
      exact ⟨j, List.mem_cons_of_mem _ hj⟩

/-! ## Helper lemmas about the merge loop and the node map -/

theorem mergeLoop_eq (bufSize : Nat) (nodes : NodeMap) :
    ∀ (edges : List Doc) (buffer : List Doc),
      mergeLoop bufSize nodes buffer edges =
        (mergeAll nodes edges).map fun out => buffer ++ out
  | [], buffer => by simp [mergeLoop, mergeAll, Except.map]
  | edge :: rest, buffer => by
    cases hm : mergeEdge nodes edge with
    | error e => simp [mergeLoop, mergeAll, hm, Except.map]
    | ok merged =>
      simp only [mergeLoop, mergeAll, hm]
      by_cases h : (buffer ++ [merged]).length = bufSize
      · rw [if_pos h, mergeLoop_eq bufSize nodes rest []]
        cases hma : mergeAll nodes rest <;> simp [hma, Except.map]
      · rw [if_neg h, mergeLoop_eq bufSize nodes rest (buffer ++ [merged])]
        cases hma : mergeAll nodes rest <;> simp [hma, Except.map]

theorem mergeAll_ok_of_forall {nodes : NodeMap} {R : Doc → Doc → Prop} :
    ∀ es : List Doc, (∀ e ∈ es, ∃ o, mergeEdge nodes e = .ok o ∧ R e o) →
      ∃ out, mergeAll nodes es = .ok out ∧ List.Forall₂ R es out
  | [], _ => ⟨[], rfl, List.Forall₂.nil⟩
  | e :: rest, h => by
    rcases h e (List.mem_cons_self _ _) with ⟨o, ho, hR⟩
    rcases mergeAll_ok_of_forall rest (fun e2 he2 => h e2 (List.mem_cons_of_mem _ he2)) with
      ⟨out, hout, hF⟩
    exact ⟨o :: out, by simp [mergeAll, ho, hout], List.Forall₂.cons hR hF⟩

theorem mergeEdge_ok_of_resolvable (nodes : NodeMap) (e : Doc)
    (h : edgeResolvable nodes e = true) :
    ∃ sv ov sn objn,
      dGet e "subject" = some sv ∧ dGet e "object" = some ov ∧
      mapLookup nodes sv = some sn ∧ mapLookup nodes ov = some objn ∧
      mergeEdge nodes e = .ok (dSet (dSet e "subject" (.obj sn)) "object" (.obj objn)) := by
  unfold edgeResolvable at h
  cases hs : dGet e "subject" with
  | none => rw [hs] at h; cases hov : dGet e "object" <;> rw [hov] at h <;> exact absurd h (by simp)
  | some sv =>
    cases hov : dGet e "object" with
    | none => rw [hs, hov] at h; exact absurd h (by simp)
    | some ov =>
      rw [hs, hov] at h
      simp only [Bool.and_eq_true, Option.isSome_iff_exists] at h
      rcases h with ⟨⟨sn, hsn⟩, ⟨objn, hobjn⟩⟩
      exact ⟨sv, ov, sn, objn, rfl, rfl, hsn, hobjn, by simp [mergeEdge, hs, hov, hsn, hobjn]⟩

theorem buildNodeMap_error : ∀ (ns : List Doc) (m : NodeMap),
    (∃ n ∈ ns, dGet n "id" = none) → buildNodeMap m ns = .error .keyError
  | [], _, h => by simp at h
  | n :: rest, m, h => by
    cases hid : dGet n "id" with
    | none => simp [buildNodeMap, hid]
    | some idv =>
      rcases h with ⟨n2, hn2, hid2⟩
      rcases List.mem_cons.mp hn2 with h1 | h2
      · subst h1
        rw [hid] at hid2
        exact absurd hid2 (by simp)
      · simp only [buildNodeMap, hid]
        exact buildNodeMap_error rest (mapInsert m idv n) ⟨n2, h2, hid2⟩

theorem buildNodeMap_mem : ∀ (ns : List Doc) (m m2 : NodeMap),
    buildNodeMap m ns = .ok m2 → ∀ k v, mapLookup m2 k = some v →
      mapLookup m k = some v ∨ (v ∈ ns ∧ dGet v "id" = some k)
  | [], m, m2, hb, k, v, hl => by
    simp only [buildNodeMap] at hb
    cases hb
    exact Or.inl hl
  | n :: rest, m, m2, hb, k, v, hl => by
    simp only [buildNodeMap] at hb
    cases hid : dGet n "id" with
    | none => rw [hid] at hb; exact absurd hb (by simp)
    | some idv =>
      rw [hid] at hb
      rcases buildNodeMap_mem rest (mapInsert m idv n) m2 hb k v hl with h1 | h2
      · rw [mapLookup_mapInsert] at h1
        by_cases hk : idv = k
        · rw [if_pos hk] at h1
          cases h1
          exact Or.inr ⟨List.mem_cons_self _ _, by rw [hid, hk]⟩
        · rw [if_neg hk] at h1
          exact Or.inl h1
      · exact Or.inr ⟨List.mem_cons_of_mem _ h2.1, h2.2⟩

/-! ## Helper lemmas about `iter_n` -/

theorem iter_nF_nil : ∀ (fuel n : Nat), iter_nF fuel ([] : List α) n = []
  | 0, _ => rfl
  | _ + 1, 0 => rfl
  | _ + 1, _ + 1 => rfl

theorem iter_nF_congr : ∀ (f1 f2 : Nat) (xs : List α) (n : Nat),
    xs.length ≤ f1 → xs.length ≤ f2 → iter_nF f1 xs n = iter_nF f2 xs n
  | _, _, [], _, _, _ => by rw [iter_nF_nil, iter_nF_nil]
  | 0, _, x :: xs, _, h1, _ => by simp at h1
  | _ + 1, 0, x :: xs, _, _, h2 => by simp at h2
  | f1 + 1, f2 + 1, x :: xs, 0, _, _ => rfl
  | f1 + 1, f2 + 1, x :: xs, n + 1, h1, h2 => by
    simp only [iter_nF]
    rw [iter_nF_congr f1 f2 ((x :: xs).drop (n + 1)) (n + 1)
      (by simp only [List.length_drop, List.length_cons] at *; omega)
      (by simp only [List.length_drop, List.length_cons] at *; omega)]

theorem iter_n_cons (x : α) (xs : List α) (n : Nat) :
    iter_n (x :: xs) (n + 1) =
      (x :: xs).take (n + 1) :: iter_n ((x :: xs).drop (n + 1)) (n + 1) := by
  show iter_nF (x :: xs).length (x :: xs) (n + 1) = _
  simp only [List.length_cons, iter_nF]
  congr 1
  exact iter_nF_congr xs.length ((x :: xs).drop (n + 1)).length ((x :: xs).drop (n + 1)) (n + 1)
    (by simp only [List.length_drop, List.length_cons]; omega) (le_refl _)

theorem iter_nF_flatten : ∀ (fuel : Nat) (xs : List α) (n : Nat), xs.length ≤ fuel →
    (iter_nF fuel xs (n + 1)).flatten = xs
  | _, [], _, _ => by rw [iter_nF_nil]; rfl
  | 0, x :: xs, _, h => by simp at h
  | fuel + 1, x :: xs, n, h => by
    simp only [iter_nF, List.flatten_cons]
    rw [iter_nF_flatten fuel ((x :: xs).drop (n + 1)) n
      (by simp only [List.length_drop]; simp at h ⊢; omega)]
    exact List.take_append_drop (n + 1) (x :: xs)

theorem iter_n_flatten (xs : List α) (n : Nat) : (iter_n xs (n + 1)).flatten = xs :=
  iter_nF_flatten xs.length xs n (le_refl _)

theorem iter_nF_length : ∀ (fuel : Nat) (xs : List α) (n : Nat), xs.length ≤ fuel →
    (iter_nF fuel xs (n + 1)).length = (xs.length + n) / (n + 1)
  | _, [], n, _ => by
    rw [iter_nF_nil]
    simp [Nat.div_eq_of_lt (Nat.lt_succ_self n)]
  | 0, x :: xs, _, h => by simp at h
  | fuel + 1, x :: xs, n, h => by
    simp only [iter_nF, List.length_cons]
    rw [iter_nF_length fuel ((x :: xs).drop (n + 1)) n
      (by simp only [List.length_drop]; simp at h ⊢; omega)]
    simp only [List.length_drop, List.length_cons]
    by_cases hbig : n + 1 ≤ xs.length + 1
    · have h1 : xs.length + 1 - (n + 1) + n = xs.length := by omega
      have h2 : xs.length + 1 + n = (xs.length - n) + (n + 1) + n := by omega
      rw [h1, h2, Nat.add_right_comm, Nat.add_div_right _ (by omega : 0 < n + 1)]
      have h3 : xs.length - n + n = xs.length := by omega
      rw [h3]
    · have h1 : xs.length + 1 - (n + 1) = 0 := by omega
      rw [h1]
      rw [Nat.div_eq_of_lt (by omega : 0 + n < n + 1)]
      rw [Nat.div_eq_of_lt_le (by omega : 1 * (n + 1) ≤ xs.length + 1 + n)
        (by omega : xs.length + 1 + n < (1 + 1) * (n + 1))]

theorem iter_n_length (xs : List α) (n : Nat) :
    (iter_n xs (n + 1)).length = (xs.length + n) / (n + 1) :=
  iter_nF_length xs.length xs n (le_refl _)

theorem iter_nF_mem : ∀ (fuel : Nat) (xs : List α) (n : Nat), xs.length ≤ fuel →
    ∀ c ∈ iter_nF fuel xs (n + 1), c ≠ [] ∧ c.length ≤ n + 1
  | _, [], _, _ => by rw [iter_nF_nil]; intro c hc; simp at hc
  | 0, x :: xs, _, h => by simp at h
  | fuel + 1, x :: xs, n, h => by
    simp only [iter_nF]
    intro c hc
    rcases List.mem_cons.mp hc with h1 | h2
    · subst h1
      constructor
      · simp
      · rw [List.length_take]
        omega
    · exact iter_nF_mem fuel ((x :: xs).drop (n + 1)) n
        (by simp only [List.length_drop]; simp at h ⊢; omega) c h2

theorem iter_n_mem (xs : List α) (n : Nat) :
    ∀ c ∈ iter_n xs (n + 1), c ≠ [] ∧ c.length ≤ n + 1 :=
  iter_nF_mem xs.length xs n (le_refl _)

theorem iter_nF_ne_nil : ∀ (fuel : Nat) (xs : List α) (n : Nat), xs.length ≤ fuel →
    xs ≠ [] → iter_nF fuel xs (n + 1) ≠ []
  | _, [], _, _, hne => absurd rfl hne
  | 0, x :: xs, _, h, _ => by simp at h
  | fuel + 1, x :: xs, n, _, _ => by simp [iter_nF]

theorem iter_nF_dropLast : ∀ (fuel : Nat) (xs : List α) (n : Nat), xs.length ≤ fuel →
    ∀ c ∈ (iter_nF fuel xs (n + 1)).dropLast, c.length = n + 1
  | _, [], _, _ => by rw [iter_nF_nil]; intro c hc; simp at hc
  | 0, x :: xs, _, h => by simp at h
  | fuel + 1, x :: xs, n, h => by
    simp only [iter_nF]
    by_cases hd : (x :: xs).drop (n + 1) = []
    · rw [hd, iter_nF_nil]
      intro c hc
      simp at hc
    · have hlen : n + 1 < (x :: xs).length := by
        by_contra hle
        push_neg at hle
        exact hd (List.drop_eq_nil_of_le hle)
      have hdl : ((x :: xs).drop (n + 1)).length ≤ fuel := by
        simp only [List.length_drop]
        simp at h ⊢
        omega
      have hne : iter_nF fuel ((x :: xs).drop (n + 1)) (n + 1) ≠ [] :=
        iter_nF_ne_nil fuel _ n hdl hd
      rw [List.dropLast_cons_of_ne_nil hne]
      intro c hc
      rcases List.mem_cons.mp hc with h1 | h2
      · subst h1
        rw [List.length_take]
        simp at hlen ⊢
        omega
      · exact iter_nF_dropLast fuel _ n hdl c h2

theorem iter_n_dropLast (xs : List α) (n : Nat) :
    ∀ c ∈ (iter_n xs (n + 1)).dropLast, c.length = n + 1 :=
  iter_nF_dropLast xs.length xs n (le_refl _)

theorem iter_n_singleton (xs : List α) (n : Nat) (hne : xs ≠ []) (hlen : xs.length ≤ n + 1) :
    iter_n xs (n + 1) = [xs] := by
  cases xs with
  | nil => exact absurd rfl hne
  | cons x t =>
    rw [iter_n_cons, List.take_of_length_le hlen, List.drop_eq_nil_of_le hlen]
    rfl

theorem iter_n_ne_nil (xs : List α) (n : Nat) (hne : xs ≠ []) : iter_n xs (n + 1) ≠ [] :=
  iter_nF_ne_nil xs.length xs n (le_refl _) hne

/-! ## Helper lemmas about `merge_source` batching -/

theorem flatMap_eq_self {l : List (List α)} {f : List α → List (List α)}
    (h : ∀ b ∈ l, f b = [b]) : l.flatMap f = l := by
  induction l with
  | nil => rfl
  | cons b rest ih =>
    rw [List.flatMap_cons, h b (List.mem_cons_self _ _),
      ih fun c hc => h c (List.mem_cons_of_mem _ hc)]
    rfl

theorem div100_succ (B : Nat) (hB : 100 ≤ B) : ∃ k, B / 100 = k + 1 :=
  ⟨B / 100 - 1, by
    have := (Nat.one_le_div_iff (by omega : 0 < 100)).mpr hB
    omega⟩

theorem mergeSourceBatches_eq (ids : List α) (B : Nat) (hB : 100 ≤ B) :
    mergeSourceBatches ids B = iter_n ids (B / 100) := by
  unfold mergeSourceBatches
  apply flatMap_eq_self
  intro b hb
  obtain ⟨k, hk⟩ := div100_succ B hB
  rw [hk] at hb
  rcases iter_n_mem ids k b hb with ⟨hne, hlen⟩
  obtain ⟨m, hm⟩ : ∃ m, B = m + 1 := ⟨B - 1, by omega⟩
  rw [hm]
  refine iter_n_singleton b m hne ?_
  have hd : B / 100 ≤ B := Nat.div_le_self B 100
  omega

theorem foldl_add_length (bs : List (List α)) :
    ∀ acc : Nat, bs.foldl (fun a b => a + b.length) acc = acc + bs.flatten.length := by
  induction bs with
  | nil => intro acc; simp
  | cons b rest ih =>
    intro acc
    simp only [List.foldl_cons, List.flatten_cons, List.length_append, ih]
    omega

theorem merge_source_cnt_eq (ids : List α) (B : Nat) (hB : 100 ≤ B) :
    merge_source_cnt ids B = ids.length := by
  unfold merge_source_cnt
  rw [mergeSourceBatches_eq ids B hB, foldl_add_length]
  obtain ⟨k, hk⟩ := div100_succ B hB
  rw [hk, iter_n_flatten]
  omega

theorem merge_source_dispatch_batches_of_ne_nil (ids source_ids : List α) (B : Nat)
    (h : ids ≠ []) :
    merge_source_dispatch_batches ids source_ids B = mergeSourceBatches ids B := by
  unfold merge_source_dispatch_batches mergeSourceBatches
  rw [if_neg (by simpa using h)]

theorem merge_source_dispatch_batches_nil (source_ids : List α) (B : Nat) :
    merge_source_dispatch_batches ([] : List α) source_ids B =
      (iter_n source_ids (B * 10)).flatMap fun big_doc_ids => iter_n big_doc_ids B := rfl

/-! ## Helper lemmas about prefix stripping -/

theorem isPrefixOf_append_self : ∀ (p x : List Char), p.isPrefixOf (p ++ x) = true
  | [], _ => by simp [List.isPrefixOf]
  | c :: p, x => by simp [List.isPrefixOf, isPrefixOf_append_self p x]

/-! ## Helper lemmas about the index dispatch state machine -/

theorem applyComp_error_mono (s : IdxState) (c : Comp) (h : s.error = true) :
    (applyComp s c).error = true := by
  unfold applyComp
  split
  · split
    · exact h
    · rfl
  · exact h

theorem applyComps_error_mono (s : IdxState) (cs : List Comp) (h : s.error = true) :
    (applyComps s cs).error = true := by
  induction cs generalizing s with
  | nil => exact h
  | cons c rest ih =>
    simp only [applyComps, List.foldl_cons]
    exact ih (applyComp s c) (applyComp_error_mono s c h)

theorem applyComp_jobs_length (s : IdxState) (c : Comp) :
    (applyComp s c).jobs.length = s.jobs.length := by
  unfold applyComp
  split
  · split <;> simp
  · rfl

theorem applyComps_jobs_length (s : IdxState) (cs : List Comp) :
    (applyComps s cs).jobs.length = s.jobs.length := by
  induction cs generalizing s with
  | nil => rfl
  | cons c rest ih =>
    simp only [applyComps, List.foldl_cons]
    have h2 := ih (applyComp s c)
    simp only [applyComps] at h2
    rw [h2, applyComp_jobs_length]

theorem cancelPending_not_running (jobs : List JobStatus) :
    ∀ j ∈ cancelPending jobs, j ≠ .running := by
  intro j hj
  rcases List.mem_map.mp hj with ⟨j0, _, hj0⟩
  subst hj0
  by_cases h : j0 = JobStatus.running <;> simp [h]

/-! ## The claims -/

/-- C1 (counterexample): the claim's precondition only asks that every
edge's `subject`/`object` equal the `id` of some node record.  In
`c1CexFolder` that holds (the single edge references node `"a"`, which
exists, and M = 1), yet `load_merged_edges` raises `KeyError` while
building the node dict — because a second, unreferenced node record has no
`id` field — and so yields no merged documents instead of the claimed M. -/
theorem load_merged_edges_killed_by_unreferenced_idless_node :
    (∀ e ∈ c1CexFolder.edges,
      dGet e "subject" = some (.prim "a") ∧ dGet e "object" = some (.prim "a") ∧
      ∃ n ∈ c1CexFolder.nodes, dGet n "id" = dGet e "subject") ∧
    c1CexFolder.edges.length = 1 ∧
    load_merged_edges c1CexFolder = .error .keyError :=
  ⟨by decide, by decide, rfl⟩

/-- C1 (amended): for a directory whose node dict builds (every node record
has an `id` field, giving dict `m`) and whose edge records all have
`subject`/`object` fields resolving in `m`, the Streaming File Merger
succeeds and yields exactly one merged document per edge record of the
edges file, in edge-file order: each output document is the (read-stage)
edge record with its `subject` and `object` fields replaced by the full
referenced node records.  The statement is about the flat output sequence,
so the internal 2048-sized output buffering is not observable. -/
theorem load_merged_edges_merges_every_edge (folder : DataFolder) (m : NodeMap)
    (hm : buildNodeMap [] (load_nodes folder) = .ok m)
    (href : ∀ e ∈ load_edges folder, edgeResolvable m e = true) :
    ∃ out, load_merged_edges folder = .ok out ∧
      out.length = folder.edges.length ∧
      List.Forall₂ (fun e o => ∃ sv ov sn objn,
          dGet e "subject" = some sv ∧ dGet e "object" = some ov ∧
          mapLookup m sv = some sn ∧ mapLookup m ov = some objn ∧
          sn ∈ load_nodes folder ∧ dGet sn "id" = some sv ∧
          objn ∈ load_nodes folder ∧ dGet objn "id" = some ov ∧
          o = dSet (dSet e "subject" (.obj sn)) "object" (.obj objn))
        (load_edges folder) out := by
  have hforall : ∀ e ∈ load_edges folder, ∃ o, mergeEdge m e = .ok o ∧
      ∃ sv ov sn objn,
        dGet e "subject" = some sv ∧ dGet e "object" = some ov ∧
        mapLookup m sv = some sn ∧ mapLookup m ov = some objn ∧
        sn ∈ load_nodes folder ∧ dGet sn "id" = some sv ∧
        objn ∈ load_nodes folder ∧ dGet objn "id" = some ov ∧
        o = dSet (dSet e "subject" (.obj sn)) "object" (.obj objn) := by
    intro e he
    rcases mergeEdge_ok_of_resolvable m e (href e he) with
      ⟨sv, ov, sn, objn, hs, hov, hsn, hobjn, hme⟩
    have hsmem := buildNodeMap_mem (load_nodes folder) [] m hm sv sn hsn
    have homem := buildNodeMap_mem (load_nodes folder) [] m hm ov objn hobjn
    rcases hsmem with h1 | h1
    · exact absurd h1 (by simp [mapLookup])
    rcases homem with h2 | h2
    · exact absurd h2 (by simp [mapLookup])
    exact ⟨_, hme, sv, ov, sn, objn, hs, hov, hsn, hobjn, h1.1, h1.2, h2.1, h2.2, rfl⟩
  rcases mergeAll_ok_of_forall (load_edges folder) hforall with ⟨out, hout, hF⟩
  refine ⟨out, ?_, ?_, hF⟩
  · unfold load_merged_edges
    rw [hm]
    show mergeLoop EDGE_BUFFER_SIZE m [] (load_edges folder) = Except.ok out
    rw [mergeLoop_eq, hout]
    simp [Except.map]
  · have h1 := hF.length_eq
    have h2 : (load_edges folder).length = folder.edges.length := read_jsonl_length folder.edges
    omega

/-- C1 witness: a concrete well-referenced directory on which the amended
theorem applies with the hypotheses discharged by evaluation. -/
theorem load_merged_edges_merges_every_edge_witness :
    ∃ out, load_merged_edges c1WFolder = .ok out ∧
      out.length = c1WFolder.edges.length ∧
      List.Forall₂ (fun e o => ∃ sv ov sn objn,
          dGet e "subject" = some sv ∧ dGet e "object" = some ov ∧
          mapLookup c1WMap sv = some sn ∧ mapLookup c1WMap ov = some objn ∧
          sn ∈ load_nodes c1WFolder ∧ dGet sn "id" = some sv ∧
          objn ∈ load_nodes c1WFolder ∧ dGet objn "id" = some ov ∧
          o = dSet (dSet e "subject" (.obj sn)) "object" (.obj objn))
        (load_edges c1WFolder) out :=
  load_merged_edges_merges_every_edge c1WFolder c1WMap rfl (by decide)

/-- C9: whenever any node record of the directory lacks an `id` field,
`load_merged_edges` raises `KeyError` (while building the node dict keyed
on `id`), even though the read stage assigned the record its ordinal
position as identifier — the fallback populates only the `_id` field and
leaves `id` absent, so it never makes the node reachable. -/
theorem load_merged_edges_keyerror_on_idless_node (folder : DataFolder)
    (h : ∃ n ∈ folder.nodes, dGet n "id" = none) :
    load_merged_edges folder = .error .keyError ∧
    ∀ (i : Nat) (n : Doc), dGet n "id" = none →
      dGet (withPositionalId i n) "_id" = some (.prim (toString i)) ∧
      dGet (withPositionalId i n) "id" = none := by
  constructor
  · have h2 : ∃ n2 ∈ load_nodes folder, dGet n2 "id" = none := by
      rcases h with ⟨n, hn, hid⟩
      rcases assignIds_mem_of_mem folder.nodes 0 n hn with ⟨j, hj⟩
      refine ⟨withPositionalId j n, ?_, ?_⟩
      · show _ ∈ read_jsonl folder.nodes
        rw [read_jsonl_eq]
        exact hj
      · rw [dGet_withPositionalId_id]
        exact hid
    unfold load_merged_edges
    rw [buildNodeMap_error (load_nodes folder) [] h2]
  · intro i n hid
    constructor
    · unfold withPositionalId
      rw [hid]
      exact dGet_dSet_self n "_id" _
    · rw [dGet_withPositionalId_id]
      exact hid

/-- C9 witness: a directory containing one empty node record. -/
theorem load_merged_edges_keyerror_on_idless_node_witness :
    load_merged_edges ⟨[Fields.nil], []⟩ = .error .keyError ∧
    dGet (withPositionalId 0 Fields.nil) "_id" = some (.prim (toString 0)) ∧
    dGet (withPositionalId 0 Fields.nil) "id" = none := by
  have h := load_merged_edges_keyerror_on_idless_node ⟨[Fields.nil], []⟩ (by decide)
  exact ⟨h.1, (h.2 0 Fields.nil rfl).1, (h.2 0 Fields.nil rfl).2⟩

/-- C5 (counterexample): `node_edge_merge_struct` assigns the *entire*
previously stored document over the fresh document's `subject` field, not
the stored document's pre-resolved `subject` node payload: on `c5D`/`c5S`
the merged `subject` is `Val.obj c5S`, which differs from `c5S`'s own
`subject` payload. -/
theorem node_edge_merge_struct_takes_whole_stored_doc :
    dGet (node_edge_merge_struct c5D c5S) "subject" = some (.obj c5S) ∧
    dGet c5S "subject" = some (.obj (fieldsOf [("id", .prim "n1")])) ∧
    dGet (node_edge_merge_struct c5D c5S) "subject" ≠ dGet c5S "subject" := by
  decide

/-- C5 (amended): the merge kept by the Batch Merge Worker equals the fresh
document `D` on every field other than `subject`, and its `subject` field
takes the entire previously stored document `S` (embedded as an object) —
not merely `S`'s pre-resolved `subject` node payload. -/
theorem node_edge_merge_struct_frame (D S : Doc) (k : String) (hk : k ≠ "subject") :
    dGet (node_edge_merge_struct D S) "subject" = some (.obj S) ∧
    dGet (node_edge_merge_struct D S) k = dGet D k :=
  ⟨dGet_dSet_self D "subject" (.obj S),
   dGet_dSet_ne D "subject" k (.obj S) fun he => hk he.symm⟩

/-- C5 witness: the amended frame property evaluated on the concrete
documents at the untouched field `"predicate"`. -/
theorem node_edge_merge_struct_frame_witness :
    dGet (node_edge_merge_struct c5D c5S) "subject" = some (.obj c5S) ∧
    dGet (node_edge_merge_struct c5D c5S) "predicate" = dGet c5D "predicate" :=
  node_edge_merge_struct_frame c5D c5S "predicate" (by decide)

/-- C6: querying the Ancestor Resolver twice with the same phrase against
the threaded cache yields the identical result and cache, the second call
performs zero external ontology lookups, the first performs at most one —
and this covers the empty-first-result case, since `get_ancestors` caches
the result unconditionally. -/
theorem get_ancestors_memoizes (lookup : List Char → List (List Char))
    (phrase : List Char) (cache : AncCache) :
    (get_ancestors lookup phrase ((get_ancestors lookup phrase cache).2.1)).1
      = (get_ancestors lookup phrase cache).1 ∧
    (get_ancestors lookup phrase ((get_ancestors lookup phrase cache).2.1)).2.1
      = (get_ancestors lookup phrase cache).2.1 ∧
    (get_ancestors lookup phrase ((get_ancestors lookup phrase cache).2.1)).2.2 = 0 ∧
    (get_ancestors lookup phrase cache).2.2 ≤ 1 := by
  cases hc : cacheGet cache phrase with
  | some v => simp [get_ancestors, hc]
  | none => simp [get_ancestors, hc, cacheGet_cacheSet_self]

/-- C7 (counterexample): the stripping is not idempotent: on a
doubly-prefixed string, one application leaves a string that still starts
with "biolink:", and a second application strips further. -/
theorem remove_single_biolink_prefix_not_idempotent :
    remove_single_biolink_prefix
        ( remove_single_biolink_prefix ( "biolink:biolink:related_to".toList))
      ≠ remove_single_biolink_prefix ( "biolink:biolink:related_to".toList) := by
  decide

/-- C7 (amended): stripping `"biolink:" ++ X` yields `X`; stripping a
string that does not start with `"biolink:"` returns it unchanged
(case-sensitive, prefix-exact); and applying the stripping twice equals
applying it once for every string whose once-stripped form does not itself
start with `"biolink:"` (unrestricted idempotence fails, see the
counterexample).  The `str` branch of `remove_biolink_prefix` is exactly
the single-string stripping. -/
theorem remove_single_biolink_prefix_strips (x s : List Char)
    (h : biolink_pfx.isPrefixOf ( remove_single_biolink_prefix s) = false) :
    remove_single_biolink_prefix (biolink_pfx ++ x) = x ∧
    (biolink_pfx.isPrefixOf s = false → remove_single_biolink_prefix s = s) ∧
    remove_single_biolink_prefix ( remove_single_biolink_prefix s)
      = remove_single_biolink_prefix s ∧
    remove_biolink_prefix (.s s) = .s ( remove_single_biolink_prefix s) := by
  refine ⟨?_, ?_, ?_, rfl⟩
  · unfold remove_single_biolink_prefix
    rw [if_pos (isPrefixOf_append_self biolink_pfx x)]
    exact List.drop_left' (by decide)
  · intro h2
    unfold remove_single_biolink_prefix
    rw [h2]
    simp
  · generalize hgen : remove_single_biolink_prefix s = t at h ⊢
    unfold remove_single_biolink_prefix
    rw [h]
    simp

/-- C7 witness: the amended properties evaluated on `"related_to"` and the
unprefixed string `"Gene"`. -/
theorem remove_single_biolink_prefix_strips_witness :
    remove_single_biolink_prefix (biolink_pfx ++ "related_to".toList) = "related_to".toList ∧
    (biolink_pfx.isPrefixOf ( "Gene".toList) = false →
      remove_single_biolink_prefix ( "Gene".toList) = "Gene".toList) ∧
    remove_single_biolink_prefix ( remove_single_biolink_prefix ( "Gene".toList))
      = remove_single_biolink_prefix ( "Gene".toList) ∧
    remove_biolink_prefix (.s ( "Gene".toList))
      = .s ( remove_single_biolink_prefix ( "Gene".toList)) :=
  remove_single_biolink_prefix_strips ( "related_to".toList) ( "Gene".toList) (by decide)

/-- C2 (counterexample): with the non-empty explicit list of 5 ids and
batch_size = 200 (the source collection holding the same 5 ids), the claim
predicts a direct partition into batches of size 200, i.e. ceil(5/200) = 1
batch; the code instead chunks by int(batch_size/100) = 2 and dispatches 3
batches of sizes 2, 2, 1. -/
theorem merge_source_batches_counterexample :
    merge_source_dispatch_batches c2Ids c2Ids 200 = [["a", "b"], ["c", "d"], ["e"]] ∧
    (c2Ids.length + 200 - 1) / 200 = 1 ∧
    (merge_source_dispatch_batches c2Ids c2Ids 200).length
      ≠ (c2Ids.length + 200 - 1) / 200 := by
  decide

/-- C2 (amended): with a NON-EMPTY explicit list of L ids and
batch_size = B ≥ 100, `merge_source` partitions the ids directly into
consecutive batches of size int(B/100) — not B — so ceil(L/(B/100))
batches, every batch non-empty of size ≤ B/100 and all but the final one
exactly B/100, their concatenation being the input list; the accumulated
input-id count is L and the success-path return value is the mapping
{source_name: L}.  An empty explicit id list is falsy in
`ids and ... or id_feeder(...)`, so the code instead enumerates the whole
source collection in super-batches of 10*B re-chunked by B (final
conjunct). -/
theorem merge_source_explicit_ids_batching (src_name : String) (ids source_ids : List String)
    (B : Nat) (hids : ids ≠ []) (hB : 100 ≤ B) :
    merge_source_dispatch_batches ids source_ids B = iter_n ids (B / 100) ∧
    (merge_source_dispatch_batches ids source_ids B).flatten = ids ∧
    (merge_source_dispatch_batches ids source_ids B).length
      = (ids.length + B / 100 - 1) / (B / 100) ∧
    (∀ b ∈ merge_source_dispatch_batches ids source_ids B, b ≠ [] ∧ b.length ≤ B / 100) ∧
    (∀ b ∈ (merge_source_dispatch_batches ids source_ids B).dropLast,
      b.length = B / 100) ∧
    (src_name, merge_source_dispatch_cnt ids source_ids B) = (src_name, ids.length) ∧
    merge_source_dispatch_batches ([] : List String) source_ids B
      = (iter_n source_ids (B * 10)).flatMap fun big_doc_ids => iter_n big_doc_ids B := by
  obtain ⟨k, hk⟩ := div100_succ B hB
  have hd := merge_source_dispatch_batches_of_ne_nil ids source_ids B hids
  have he := mergeSourceBatches_eq ids B hB
  refine ⟨hd.trans he, ?_, ?_, ?_, ?_, ?_,
    merge_source_dispatch_batches_nil source_ids B⟩
  · rw [hd, he, hk]
    exact iter_n_flatten ids k
  · rw [hd, he, hk, iter_n_length]
    congr 1
  · rw [hd, he, hk]
    exact iter_n_mem ids k
  · rw [hd, he, hk]
    exact iter_n_dropLast ids k
  · unfold merge_source_dispatch_cnt
    rw [hd]
    show (src_name, merge_source_cnt ids B) = _
    rw [merge_source_cnt_eq ids B hB]

/-- C2 witness: 5 explicit ids with batch_size 200 give the success-path
count 5 keyed by the source name, the hypotheses discharged by
evaluation. -/
theorem merge_source_explicit_ids_batching_witness :
    c2Ids ≠ [] ∧ 100 ≤ 200 ∧
    ("cebs", merge_source_dispatch_cnt c2Ids c2Ids 200) = ("cebs", 5) :=
  ⟨by decide, by decide, by
    have h := merge_source_explicit_ids_batching "cebs" c2Ids c2Ids 200 (by decide) (by decide)
    simpa using h.2.2.2.2.2.1⟩

/-- C3: in `do_index`'s dispatch loop, whenever the error sentinel has been
recorded by a completion callback before an iteration that still has a
batch to schedule, the loop cancels every dispatched job that is not yet
done and raises the error at once: the pending batch and all later ones are
never dispatched (the job list does not grow), every job in the raised
state is non-running (done, failed or cancelled), and `do_index` cannot
return a success count. -/
theorem do_index_fail_fast (total : Nat) (b : List String) (bs : List (List String))
    (events : List (List Comp)) (gatherEvents : List Comp) (s : IdxState)
    (herr : s.error = true) :
    dispatchLoop (b :: bs) events s =
      .raisedEarly (cancelPending (applyComps s (events.headD [])).jobs) ∧
    (∀ j ∈ cancelPending (applyComps s (events.headD [])).jobs, j ≠ .running) ∧
    (cancelPending (applyComps s (events.headD [])).jobs).length = s.jobs.length ∧
    ∀ c, do_index_from total (b :: bs) events gatherEvents s ≠ .success c := by
  have herr2 : (applyComps s (events.headD [])).error = true :=
    applyComps_error_mono s (events.headD []) herr
  have hloop : dispatchLoop (b :: bs) events s =
      .raisedEarly (cancelPending (applyComps s (events.headD [])).jobs) := by
    simp only [dispatchLoop]
    rw [if_pos herr2]
  refine ⟨hloop, cancelPending_not_running _, ?_, ?_⟩
  · unfold cancelPending
    rw [List.length_map]
    exact applyComps_jobs_length s (events.headD [])
  · intro c hsuc
    unfold do_index_from at hsuc
    rw [hloop] at hsuc
    exact absurd hsuc (by simp)

/-- C3 witness: two jobs dispatched, the first already failed (error
recorded); with three batches still to schedule, the loop raises, the
running job is cancelled, and no success value is produced. -/
theorem do_index_fail_fast_witness :
    dispatchLoop [["e3"], ["e4"], ["e5"]] [] ⟨[.failed, .running], true, 0⟩ =
      .raisedEarly [.failed, .cancelled] ∧
    do_index_from 5 [["e3"], ["e4"], ["e5"]] [] [] ⟨[.failed, .running], true, 0⟩ ≠
      .success 5 := by
  have h := do_index_fail_fast 5 ["e3"] [["e4"], ["e5"]] [] []
    ⟨[.failed, .running], true, 0⟩ rfl
  exact ⟨by rw [h.1]; rfl, h.2.2.2 5⟩

/-- C4: the worker's diagnostic dump can never happen.  Whatever point of
the `try` block raised — so whatever subset of the `try`-assigned locals
is bound, on top of the six parameters — the `except` block's very first
statement reads `batch_num`, a name that is not bindable anywhere in
`node_edge_merger_worker`; it raises `NameError`, zero of the three
artifact files (`.exc`/`.ids`/`.docs`) are written, and the exception that
propagates is the `NameError`, not the original one. -/
theorem worker_except_block_writes_nothing (scope : List String)
    (hscope : ∀ n ∈ scope, n ∈ worker_scope_names) :
    runStmts scope worker_except_stmts = ([], some .nameError) := by
  have hbn : scope.contains "batch_num" = false := by
    by_cases hmem : "batch_num" ∈ scope
    · have h2 := hscope "batch_num" hmem
      exact absurd h2 (by decide)
    · simpa using hmem
  simp only [worker_except_stmts, runStmts, List.all_cons, List.all_nil]
  rw [hbn]
  simp

/-- C4 witness: an exception raised on the `try` block's first statement —
scope is exactly the six parameters plus the caught exception `e` — writes
no artifact and raises `NameError`. -/
theorem worker_except_block_writes_nothing_witness :
    runStmts (node_edge_merger_worker_params ++ ["e"]) worker_except_stmts
      = ([], some .nameError) :=
  worker_except_block_writes_nothing (node_edge_merger_worker_params ++ ["e"]) (by decide)

/-- C8: `merge_source` binds nine positional arguments onto the
six-parameter `node_edge_merger_worker`, so every deferred job raises
`TypeError` before any database read or write; consequently, for every
non-empty explicit id list (with batch_size ≥ 100 so that at least one
batch is dispatched), `merge_source` raises instead of returning the
success mapping. -/
theorem merge_source_jobs_all_typeerror (src_name col_name target_name merger : String)
    (ids : List String) (B : Nat) (upsert : Bool)
    (body : List String → Unit → Except PyExc Nat × List String)
    (hids : ids ≠ []) (hB : 100 ≤ B) :
    (∀ (doc_ids : List String) (bnum : Nat),
      (invoke_node_edge_merger_worker
          (merge_source_bound_args col_name target_name doc_ids upsert merger bnum)
          (body doc_ids)).result = .error .typeError ∧
      (invoke_node_edge_merger_worker
          (merge_source_bound_args col_name target_name doc_ids upsert merger bnum)
          (body doc_ids)).dbEffects = []) ∧
    mergeSourceBatches ids B ≠ [] ∧
    merge_source_run src_name col_name target_name ids B upsert merger body = none := by
  have hinv : ∀ (doc_ids : List String) (bnum : Nat),
      invoke_node_edge_merger_worker
          (merge_source_bound_args col_name target_name doc_ids upsert merger bnum)
          (body doc_ids) = ⟨.error .typeError, []⟩ := by
    intro doc_ids bnum
    unfold invoke_node_edge_merger_worker
    rw [if_neg (by simp [merge_source_bound_args, node_edge_merger_worker_params])]
  have hne : mergeSourceBatches ids B ≠ [] := by
    obtain ⟨k, hk⟩ := div100_succ B hB
    rw [mergeSourceBatches_eq ids B hB, hk]
    exact iter_n_ne_nil ids k hids
  refine ⟨fun doc_ids bnum => by rw [hinv doc_ids bnum]; exact ⟨rfl, rfl⟩, hne, ?_⟩
  unfold merge_source_run
  cases hbs : mergeSourceBatches ids B with
  | nil => exact absurd hbs hne
  | cons doc_ids rest =>
    simp only [merge_source_jobs, hinv doc_ids 1, List.all_cons]
    simp

/-- C8 witness: a single id with the default-scale batch size 100. -/
theorem merge_source_jobs_all_typeerror_witness :
    (invoke_node_edge_merger_worker
        (merge_source_bound_args "cebs" "target" ["x"] true "upsert" 1)
        (fun _ => (.ok 1, ["db-write"]))).result = .error .typeError ∧
    merge_source_run "cebs" "cebs" "target" ["x"] 100 true "upsert"
        (fun _ _ => (.ok 1, ["db-write"])) = none := by
  have h := merge_source_jobs_all_typeerror "cebs" "cebs" "target" "upsert" ["x"] 100 true
    (fun _ _ => (.ok 1, ["db-write"])) (by decide) (by decide)
  exact ⟨(h.1 ["x"] 1).1, h.2.2⟩

/-- C10: the behaviour of `RTXKG2IndexingTask` is independent of the
`node_mongo` client factory supplied at construction: with the es client,
edge client, validity predicate, ids, mode and name held fixed, two
constructions with different node factories produce literally equal task
states (line 236 stores the edge factory under `node_mongo`), and `index`
— which reads documents only from the edge backend — returns the same
count under any abstract database and sink semantics. -/
theorem rtxkg2_task_ignores_node_mongo {κ : Type} (es em nm1 nm2 : κ)
    (pred : String → Bool) (ids : List String) (mode : Option String) (name : String)
    (edge_doc_feeder : κ → List String → List Doc) (es_mindex : κ → List Doc → Nat) :
    rtxkg2_task_init es em nm1 pred ids mode name
      = rtxkg2_task_init es em nm2 pred ids mode name ∧
    rtxkg2_task_index edge_doc_feeder es_mindex (rtxkg2_task_init es em nm1 pred ids mode name)
      = rtxkg2_task_index edge_doc_feeder es_mindex (rtxkg2_task_init es em nm2 pred ids mode name) :=
  ⟨rfl, rfl⟩

end DogPark
